import Mathlib

/-!
# Snowman decompiler: the analysis pipeline and its dominator sets

A shallow embedding of `src/nc/core/MasterAnalyzer.cpp` and
`src/nc/core/ir/Dominators.h`, followed by the properties proved about it.

Conventions of the embedding:

* a `QString` is a Lean `String`;
* a C++ pointer that is only compared and used as a key is a `Nat`, the null
  pointer being `NULL = 0`; a pointer that is dereferenced for its fields is an
  `Option` of the pointee;
* collaborators whose bodies live outside the two source files (symbol lookup,
  demangler, identifier sanitiser, the stage analyzers) are parameters;
* a failed `assert` and a thrown cancellation are explicit outcomes; a
  reference that the source binds to `*p` without a check and only hands on is
  handed on as the pointer `p`, null included.
-/

namespace Snowman

/-! ## Definitions -/

/-! ### Strings and numbers -/

/-- Modelled from the spec: the address type `ByteAddr` is declared outside the
embedded source files; the spec speaks of the binary address of a basic block,
which is taken here as a natural number. -/
abbrev ByteAddr := Nat

/-- The text that `QString::arg(value, 0, 16)` substitutes for a place marker:
the value in base 16, lower-case digits, field width 0, no radix marker. -/
def toHex (n : Nat) : String :=
  String.mk (Nat.toDigits 16 n)

/-- Value of one lower-case hexadecimal digit; 16 for any other character. -/
def hexDigitValue (c : Char) : Nat :=
  if c = '0' then 0 else if c = '1' then 1 else if c = '2' then 2
  else if c = '3' then 3 else if c = '4' then 4 else if c = '5' then 5
  else if c = '6' then 6 else if c = '7' then 7 else if c = '8' then 8
  else if c = '9' then 9 else if c = 'a' then 10 else if c = 'b' then 11
  else if c = 'c' then 12 else if c = 'd' then 13 else if c = 'e' then 14
  else if c = 'f' then 15 else 16

/-- Reads a string of hexadecimal digits, most significant digit first. -/
def fromHex (s : String) : Nat :=
  s.data.foldl (fun acc c => 16 * acc + hexDigitValue c) 0

/-- The test `QString::contains(QChar)`. -/
def containsChar (s : String) (c : Char) : Bool :=
  s.data.contains c

/-! ### Functions and their names (`MasterAnalyzer::pickFunctionName`) -/

/-- A basic block, as far as naming looks at it: `address()` is an optional
address. -/
structure BasicBlock where
  address : Option ByteAddr
  deriving DecidableEq, Repr

/-- A function of the intermediate representation. `self` is the value of the
pointer to the object, `reinterpret_cast<std::uintptr_t>(function)`; `entry` is
`none` for a null entry pointer; `comment` is the comment log, one item per
call of `comment().append`. -/
structure Function where
  self : Nat
  entry : Option BasicBlock
  name : String
  comment : List String
  deriving DecidableEq, Repr

/-- The call `function->setName(name)`. -/
def Function.setName (function : Function) (name : String) : Function :=
  { function with name := name }

/-- The call `function->comment().append(text)`. -/
def Function.appendComment (function : Function) (text : String) : Function :=
  { function with comment := function.comment ++ [text] }

/-- Target architecture description, known only by reference. -/
structure Architecture where
  handle : Nat
  deriving DecidableEq, Repr

/-- The module of the binary: symbol lookup by address (`getName`), the
demangling service (`demangler()->demangle`), and the architecture. -/
structure Module where
  getName : ByteAddr → String
  demangle : String → String
  architecture : Architecture

/-- Embedding of `MasterAnalyzer::pickFunctionName`. The identifier sanitiser
`likec::Tree::cleanName` is a parameter. -/
def pickFunctionName (cleanName : String → String) (module : Module)
    (function : Function) : Function :=
  match function.entry.bind BasicBlock.address with
  | some address =>
    let name := module.getName address
    if !name.isEmpty then
      let cleaned := cleanName name
      let function := function.setName cleaned
      let function := if name ≠ cleaned then function.appendComment name else function
      let demangledName := module.demangle name
      if containsChar demangledName '(' then
        function.appendComment demangledName
      else
        function
    else
      function.setName ("func_" ++ toHex address)
  | none =>
    function.setName ("func_noentry_" ++ toHex function.self)

/-- The naming loop of `MasterAnalyzer::createFunctions`: every function that
`FunctionsGenerator::makeFunctions` produced gets its name picked. -/
def createFunctions (cleanName : String → String) (module : Module)
    (made : List Function) : List Function :=
  made.map (pickFunctionName cleanName module)

/-- Modelled from the spec: `likec::Tree::cleanName` is not among the
embedded source files; the spec says that it sanitises a symbol into a valid
identifier. This instance keeps letters, digits and underscores and puts an
underscore in the place of any other character. -/
def cleanNameModel (name : String) : String :=
  String.mk (name.data.map (fun c => if c.isAlphanum || c = '_' then c else '_'))

/-- A valid identifier: not empty, not starting with a digit, made of letters,
digits and underscores. -/
def isValidIdentifier (s : String) : Bool :=
  match s.data with
  | [] => false
  | c :: cs => (c.isAlpha || c = '_') && cs.all (fun d => d.isAlphanum || d = '_')

/-- A module whose only symbol is the mangled name of `foo(int)`, at every
address, with a demangler that knows it. -/
def mangledModule : Module where
  getName := fun _ => "_Z3fooi"
  demangle := fun s => if s = "_Z3fooi" then "foo(int)" else ""
  architecture := ⟨0⟩

/-- A module with one import stub symbol at address `0x2000`, no other symbol,
and a demangler that returns its argument unchanged. -/
def stubModule : Module where
  getName := fun a => if a = 0x2000 then "foo@plt" else ""
  demangle := fun s => s
  architecture := ⟨0⟩

/-- A fresh function object at pointer `self` whose entry block has the given
optional address. -/
def freshFunction (self : Nat) (address : Option ByteAddr) : Function where
  self := self
  entry := some ⟨address⟩
  name := ""
  comment := []

/-- A fresh function object at pointer `self` without an entry block. -/
def entrylessFunction (self : Nat) : Function where
  self := self
  entry := none
  name := ""
  comment := []

/-! ### Outcomes, pointers -/

/-- The null pointer. -/
def NULL : Nat := 0

/-- How a call ends: it returns a value, it is left by the cancellation
exception, or it stops the run at a failed assertion or precondition. -/
inductive Outcome (α : Type) where
  | returned (value : α)
  | cancelled
  | fatal
  deriving DecidableEq, Repr

/-! ### The output tree and its consistency check (`MasterAnalyzer::checkTree`) -/

/-- A node of the output tree, as `checkTree` sees it. A `likec::Statement`
carries `statement()`, a pointer to its IR statement; a `likec::Expression`
carries `term()`, a pointer to its IR term, and `getType()`, a pointer to its
type; any other node kind carries neither. Pointers may be `NULL`. -/
inductive TreeNode where
  | statement (statement : Nat) (children : List TreeNode)
  | expression (term : Nat) (type : Nat) (children : List TreeNode)
  | other (children : List TreeNode)
  deriving Repr

/-- The output tree: its root node and the pointer that `makeErroneousType()`
returns. -/
structure Tree where
  root : TreeNode
  erroneousType : Nat
  deriving Repr

/-- What `ir::misc::CensusVisitor` has collected: pointers to the IR statements
and terms it visited. -/
structure CensusVisitor where
  statements : List Nat
  terms : List Nat
  deriving DecidableEq, Repr

/-- The local class `TreeVisitor` of `checkTree`: the two pointer sets copied
from the census. -/
structure TreeVisitor where
  statements_ : List Nat
  terms_ : List Nat
  deriving DecidableEq, Repr

mutual
/-- The `operator()` of `TreeVisitor`: the assertions on one node, then the
child nodes. The comparison with the erroneous type is compiled out in the
source (`#if 0`) and has no counterpart here. -/
def TreeVisitor.visit (checker : TreeVisitor) : TreeNode → Outcome Unit
  | .statement statement children =>
    if statement ≠ NULL ∧ statement ∉ checker.statements_ then .fatal
    else TreeVisitor.visitChildNodes checker children
  | .expression term type children =>
    if term ≠ NULL ∧ term ∉ checker.terms_ then .fatal
    else if type = NULL then .fatal
    else TreeVisitor.visitChildNodes checker children
  | .other children => TreeVisitor.visitChildNodes checker children
/-- The call `node->visitChildNodes(*this)`: the children in order, stopping at
the first failed assertion. -/
def TreeVisitor.visitChildNodes (checker : TreeVisitor) : List TreeNode → Outcome Unit
  | [] => .returned ()
  | child :: rest =>
    match TreeVisitor.visit checker child with
    | .returned _ => TreeVisitor.visitChildNodes checker rest
    | .cancelled => .cancelled
    | .fatal => .fatal
end

mutual
/-- All nodes of the subtree below a node, the node itself first. -/
def TreeNode.nodes : TreeNode → List TreeNode
  | .statement irStatement children =>
    .statement irStatement children :: TreeNode.nodesOfList children
  | .expression irTerm type children =>
    .expression irTerm type children :: TreeNode.nodesOfList children
  | .other children => .other children :: TreeNode.nodesOfList children
/-- All nodes of the subtrees below a list of nodes. -/
def TreeNode.nodesOfList : List TreeNode → List TreeNode
  | [] => []
  | child :: rest => TreeNode.nodes child ++ TreeNode.nodesOfList rest
end

/-- What the assertions of `TreeVisitor` demand of one node. -/
def TreeVisitor.accepts (checker : TreeVisitor) : TreeNode → Prop
  | .statement statement _ => statement ≠ NULL → statement ∈ checker.statements_
  | .expression term type _ => (term ≠ NULL → term ∈ checker.terms_) ∧ type ≠ NULL
  | .other _ => True

/-! ### The analysis registry (`Context`) -/

/-- Calls data, known only by reference. -/
structure CallsData where
  handle : Nat
  deriving DecidableEq, Repr

/-- Signatures, known only by reference. -/
structure Signatures where
  handle : Nat
  deriving DecidableEq, Repr

/-- Result of dataflow analysis, known only by reference. -/
structure Dataflow where
  handle : Nat
  deriving DecidableEq, Repr

/-- Result of usage analysis, known only by reference. -/
structure Usage where
  handle : Nat
  deriving DecidableEq, Repr

/-- Region graph of structural analysis, known only by reference. -/
structure Graph where
  handle : Nat
  deriving DecidableEq, Repr

/-- The cancellation signal shared by all stages. -/
structure CancellationToken where
  handle : Nat
  deriving DecidableEq, Repr

/-- Modelled from the spec: the class `Context` is declared outside the embedded
source files. Per the spec it is a store of global slots and slots keyed by
function, each unset or holding one artifact, together with the configuration
of the run (module, cancellation signal). A slot keyed by function is keyed by
the pointer to the function. An artifact stands for the object the slot owns;
what a collaborator does to the contents of an object through a pointer it was
handed is outside this state. -/
structure Context where
  module : Module
  cancellationToken : CancellationToken
  functions : Option (List Function)
  callsData : Option CallsData
  signatures : Option Signatures
  tree : Option Tree
  dataflows : List (Nat × Dataflow)
  graphs : List (Nat × Graph)
  usages : List (Nat × Usage)

/-- Modelled from the spec: `Context::getDataflow`, the pointer held by the
dataflow slot of a function, `none` when the slot is unset. -/
def Context.getDataflow (context : Context) (function : Function) : Option Dataflow :=
  context.dataflows.lookup function.self

/-- Modelled from the spec: `Context::setDataflow`. Writing a slot that is
already set is fatal; otherwise the slot is set. -/
def Context.setDataflow (context : Context) (function : Function) (dataflow : Dataflow) :
    Outcome Unit × Context :=
  match context.getDataflow function with
  | some _ => (.fatal, context)
  | none =>
    (.returned (), { context with dataflows := (function.self, dataflow) :: context.dataflows })

/-- The collaborator `ir::dflow::DataflowAnalyzer`: constructed on a fresh
`Dataflow` with the architecture, the function and the calls data pointer, its
`analyze(cancellationToken)` fills the `Dataflow` and returns, or is left by the
cancellation exception (the non-local abort of the spec), or fails fatally. -/
abbrev DataflowAnalyzer :=
  Architecture → Function → Option CallsData → CancellationToken → Outcome Dataflow

/-- Embedding of `MasterAnalyzer::analyzeDataflow`: run the analyzer on a local
`Dataflow`; only when it has returned, move the result into the registry. -/
def analyzeDataflow (analyzer : DataflowAnalyzer) (context : Context)
    (function : Function) : Outcome Unit × Context :=
  match analyzer context.module.architecture function context.callsData
      context.cancellationToken with
  | .returned dataflow => context.setDataflow function dataflow
  | .cancelled => (.cancelled, context)
  | .fatal => (.fatal, context)

/-- Embedding of `MasterAnalyzer::checkTree` (built only with `NC_TREE_CHECKS`).
The census visitor is constructed on the calls data pointer and applied to every
function; `visit` is one such application. The functions and the tree are read
by dereferencing the registry pointers. -/
def checkTree (visit : Option CallsData → CensusVisitor → Function → CensusVisitor)
    (context : Context) : Outcome Unit :=
  match context.functions, context.tree with
  | some functions, some tree =>
    let visitor := functions.foldl (visit context.callsData) ⟨[], []⟩
    let checker : TreeVisitor := ⟨visitor.statements, visitor.terms⟩
    checker.visit tree.root
  | _, _ => .fatal

/-! ### Dominator sets (`ir::Dominators`) -/

/-- The class `Dominators`: the mapping from a basic block (a pointer) to the
vector of its dominators, as a list of key and value pairs. -/
structure Dominators where
  dominators_ : List (Nat × List Nat)
  deriving DecidableEq, Repr

/-- The helper `nc::contains` on a map: whether the key is present. -/
def contains (map : List (Nat × List Nat)) (key : Nat) : Bool :=
  (map.lookup key).isSome

/-- The helper `nc::find` on a map: the value stored for the key, a default
value when the key is absent. -/
def find (map : List (Nat × List Nat)) (key : Nat) : List Nat :=
  (map.lookup key).getD []

/-- Embedding of `Dominators::getDominators`, its two assertions included. -/
def Dominators.getDominators (self : Dominators) (basicBlock : Nat) :
    Outcome (List Nat) :=
  if basicBlock = NULL then .fatal
  else if !contains self.dominators_ basicBlock then .fatal
  else .returned (find self.dominators_ basicBlock)

/-- A registry in the middle of a run: calls data built, dataflow published for
the functions at `0x7f00` and `0x7f40`, a region graph for all three functions,
no signatures yet, no tree yet. -/
def midRunContext : Context where
  module := stubModule
  cancellationToken := ⟨1⟩
  functions := some [entrylessFunction 0x7f00, entrylessFunction 0x7f40,
    entrylessFunction 0x7f80]
  callsData := some ⟨1⟩
  signatures := none
  tree := none
  dataflows := [(0x7f40, ⟨2⟩), (0x7f00, ⟨1⟩)]
  graphs := [(0x7f80, ⟨3⟩), (0x7f40, ⟨2⟩), (0x7f00, ⟨1⟩)]
  usages := []

/-- A dataflow analyzer that is cancelled while it works on the function at
`0x7f80` and returns for any other function. -/
def cancelledAt7f80 : DataflowAnalyzer :=
  fun _ function _ _ => if function.self = 0x7f80 then .cancelled else .returned ⟨function.self⟩

/-- A census step that records nothing beyond two fixed pointers. -/
def fixedCensus : Option CallsData → CensusVisitor → Function → CensusVisitor :=
  fun _ _ _ => ⟨[0x10], [0x20]⟩

/-- A generated tree whose one expression has no term and has the erroneous
type (the pointer `0x30`) as its type. -/
def erroneousTree : Tree where
  root := .other [.statement 0x10 [.expression NULL 0x30 []]]
  erroneousType := 0x30

/-- A registry after tree generation, holding `erroneousTree`. -/
def checkedContext : Context where
  module := stubModule
  cancellationToken := ⟨1⟩
  functions := some [entrylessFunction 0x7f00]
  callsData := some ⟨1⟩
  signatures := some ⟨1⟩
  tree := some erroneousTree
  dataflows := [(0x7f00, ⟨1⟩)]
  graphs := [(0x7f00, ⟨1⟩)]
  usages := [(0x7f00, ⟨1⟩)]

/-- Dominator sets of a graph with the blocks `0x10` (entry) and `0x20`. -/
def twoBlockDominators : Dominators where
  dominators_ := [(0x10, [0x10]), (0x20, [0x10, 0x20])]

/-! ### Construction of the dominator sets -/

/-- Modelled from the spec: the class `CFG` is declared outside the embedded
source files. Per the spec it is a directed graph over the basic blocks of one
function with a single designated entry node; blocks are pointers, edges are
given by the predecessors of each block. -/
structure CFG where
  basicBlocks : List Nat
  entry : Nat
  predecessors : Nat → List Nat

/-- The working state of the iteration: a dominator set for every block. -/
abbrev DominatorSets := Nat → Finset Nat

/-- The set of all nodes of the graph. -/
def CFG.allBlocks (cfg : CFG) : Finset Nat :=
  cfg.basicBlocks.toFinset

/-- Modelled from the spec: the initial state. The set of the entry is
`{entry}`, the set of every other node is "all nodes". -/
def CFG.initialSets (cfg : CFG) : DominatorSets :=
  fun block => if block = cfg.entry then {cfg.entry} else cfg.allBlocks

/-- Modelled from the spec: the recomputed set of a node, `{node}` united with
the intersection of the dominator sets of its predecessors, taken within "all
nodes". A predecessor that has not been visited yet still has the set "all
nodes", so leaving it out of the intersection, as the spec words it, gives the
same set. -/
def CFG.recompute (cfg : CFG) (sets : DominatorSets) (block : Nat) : Finset Nat :=
  insert block
    ((cfg.predecessors block).foldl (fun acc pred => acc ∩ sets pred) cfg.allBlocks)

/-- Modelled from the spec: one pass over the given nodes, updating the sets in
place and recording whether any set changed. -/
def CFG.pass (cfg : CFG) : List Nat → DominatorSets → Bool → DominatorSets × Bool
  | [], sets, changed => (sets, changed)
  | block :: rest, sets, changed =>
    if cfg.recompute sets block = sets block then cfg.pass rest sets changed
    else
      cfg.pass rest (fun b => if b = block then cfg.recompute sets block else sets b) true

/-- The nodes a pass goes over: every node but the entry. -/
def CFG.nonEntryBlocks (cfg : CFG) : List Nat :=
  cfg.basicBlocks.filter (fun block => block ≠ cfg.entry)

/-- Modelled from the spec: passes are repeated until a full pass changes no
set. `fuel` bounds the number of passes; `none` when it is used up. -/
def CFG.iterate (cfg : CFG) : Nat → DominatorSets → Option DominatorSets
  | 0, _ => none
  | fuel + 1, sets =>
    match cfg.pass cfg.nonEntryBlocks sets false with
    | (sets', true) => cfg.iterate fuel sets'
    | (sets', false) => some sets'

/-- A number of passes that is always enough (see `iterate_converges`): every
pass but the last removes a node from some set. -/
def CFG.passBound (cfg : CFG) : Nat :=
  cfg.basicBlocks.length * cfg.basicBlocks.length + 1

/-- The quantity that every changing pass decreases: the total size of the
sets of the non-entry nodes. -/
def CFG.totalSize (cfg : CFG) (sets : DominatorSets) : Nat :=
  (cfg.nonEntryBlocks.map (fun block => (sets block).card)).sum

/-- The invariant of the iteration: recomputing the set of a non-entry node
can only shrink it. -/
def CFG.Shrinking (cfg : CFG) (sets : DominatorSets) : Prop :=
  ∀ block ∈ cfg.nonEntryBlocks, cfg.recompute sets block ⊆ sets block

/-- Modelled from the spec: the constructor `Dominators::Dominators(const CFG &)`,
whose body is outside the embedded source files. It runs the iteration of the
spec (section 4.3) and stores, for every node of the graph, its dominator set
as a vector, the dominators listed in the order of the nodes of the graph. -/
def Dominators.construct (cfg : CFG) : Option Dominators :=
  (cfg.iterate cfg.passBound cfg.initialSets).map fun sets =>
    ⟨cfg.basicBlocks.map fun block =>
      (block, cfg.basicBlocks.dedup.filter fun dominator => dominator ∈ sets block)⟩

/-- A graph with a branch at the entry `0x10` and a join at `0x40`, with a back
edge from the join to the entry. -/
def diamondCFG : CFG where
  basicBlocks := [0x10, 0x20, 0x30, 0x40]
  entry := 0x10
  predecessors := fun block =>
    if block = 0x10 then [0x40]
    else if block = 0x20 then [0x10]
    else if block = 0x30 then [0x10]
    else if block = 0x40 then [0x20, 0x30]
    else []

/-! ## Theorems -/

/-! ### Hexadecimal rendering -/

theorem hexDigitValue_digitChar (d : Nat) (h : d < 16) :
    hexDigitValue (Nat.digitChar d) = d := by
  interval_cases d <;> decide

theorem toDigitsCore_append (b : Nat) :
    ∀ (f n : Nat) (ds : List Char),
      Nat.toDigitsCore b f n ds = Nat.toDigitsCore b f n [] ++ ds := by
  intro f
  induction f with
  | zero => intro n ds; simp [Nat.toDigitsCore]
  | succ f ih =>
    intro n ds
    simp only [Nat.toDigitsCore]
    split
    · simp
    · rw [ih (n / b) (Nat.digitChar (n % b) :: ds), ih (n / b) [Nat.digitChar (n % b)]]
      simp

theorem foldl_toDigitsCore :
    ∀ (f n : Nat), n < f →
      (Nat.toDigitsCore 16 f n []).foldl (fun acc c => 16 * acc + hexDigitValue c) 0 = n := by
  intro f
  induction f with
  | zero => intro n h; omega
  | succ f ih =>
    intro n h
    simp only [Nat.toDigitsCore]
    split
    · rename_i h0
      have hlt : n < 16 := by
        by_contra hge
        have : 0 < n / 16 := Nat.div_pos (by omega) (by decide)
        omega
      simp [Nat.mod_eq_of_lt hlt, hexDigitValue_digitChar n hlt]
    · rename_i h0
      have hdiv : n / 16 < f := by omega
      rw [toDigitsCore_append, List.foldl_append, ih (n / 16) hdiv]
      simp only [List.foldl_cons, List.foldl_nil]
      rw [hexDigitValue_digitChar (n % 16) (Nat.mod_lt _ (by decide))]
      omega

theorem fromHex_toHex (n : Nat) : fromHex (toHex n) = n := by
  unfold fromHex toHex Nat.toDigits
  exact foldl_toDigitsCore (n + 1) n (Nat.lt_succ_self n)

theorem toHex_injective : Function.Injective toHex := by
  intro a b h
  have := congrArg fromHex h
  simpa [fromHex_toHex] using this

theorem toDigitsCore_digits :
    ∀ (f n : Nat) (ds : List Char) (c : Char),
      c ∈ Nat.toDigitsCore 16 f n ds → c ∈ ds ∨ hexDigitValue c < 16 := by
  intro f
  induction f with
  | zero => intro n ds c h; left; simpa [Nat.toDigitsCore] using h
  | succ f ih =>
    intro n ds c h
    simp only [Nat.toDigitsCore] at h
    have hd : hexDigitValue (Nat.digitChar (n % 16)) < 16 := by
      rw [hexDigitValue_digitChar _ (Nat.mod_lt _ (by decide))]
      exact Nat.mod_lt _ (by decide)
    split at h
    · rcases List.mem_cons.1 h with h | h
      · right; rw [h]; exact hd
      · left; exact h
    · rcases ih _ _ c h with h | h
      · rcases List.mem_cons.1 h with h | h
        · right; rw [h]; exact hd
        · left; exact h
      · right; exact h

theorem toHex_digits (n : Nat) (c : Char) (h : c ∈ (toHex n).data) :
    hexDigitValue c < 16 := by
  unfold toHex Nat.toDigits at h
  rcases toDigitsCore_digits _ _ _ c h with h | h
  · simp at h
  · exact h

theorem toDigitsCore_head :
    ∀ (f n : Nat) (ds : List Char), n ≠ 0 → n < f →
      ∃ d rest, Nat.toDigitsCore 16 f n ds = Nat.digitChar d :: rest ∧ 0 < d ∧ d < 16 := by
  intro f
  induction f with
  | zero => intro n ds _ h; omega
  | succ f ih =>
    intro n ds hn h
    simp only [Nat.toDigitsCore]
    split
    · rename_i h0
      refine ⟨n % 16, ds, rfl, ?_, Nat.mod_lt _ (by decide)⟩
      have hlt : n < 16 := by
        by_contra hge
        have : 0 < n / 16 := Nat.div_pos (by omega) (by decide)
        omega
      rw [Nat.mod_eq_of_lt hlt]; omega
    · rename_i h0
      exact ih (n / 16) _ h0 (by omega)

theorem toHex_head (n : Nat) (hn : n ≠ 0) :
    ∃ d rest, (toHex n).data = Nat.digitChar d :: rest ∧ 0 < d ∧ d < 16 := by
  unfold toHex Nat.toDigits
  exact toDigitsCore_head (n + 1) n [] hn (Nat.lt_succ_self n)

/-! ### Naming -/

theorem string_append_left_cancel (p a b : String) (h : p ++ a = p ++ b) : a = b := by
  have := congrArg String.data h
  simp only [String.data_append, List.append_cancel_left_eq] at this
  exact String.ext this

theorem pickFunctionName_of_symbol (cleanName : String → String) (module : Module)
    (function : Function) (address : ByteAddr)
    (hentry : function.entry.bind BasicBlock.address = some address)
    (hname : module.getName address ≠ "") :
    pickFunctionName cleanName module function =
      { function with
        name := cleanName (module.getName address)
        comment := function.comment
          ++ (if cleanName (module.getName address) ≠ module.getName address
              then [module.getName address] else [])
          ++ (if '(' ∈ (module.demangle (module.getName address)).data
              then [module.demangle (module.getName address)] else []) } := by
  have hne : (module.getName address).isEmpty = false := by
    cases h : (module.getName address).isEmpty
    · rfl
    · exact absurd ((String.isEmpty_iff _).1 h) hname
  have hsym : ∀ a b : String, (a = b) = (b = a) := fun a b => propext ⟨Eq.symm, Eq.symm⟩
  unfold pickFunctionName
  rw [hentry]
  simp only [hne, Bool.not_false, if_true, containsChar, List.elem_eq_mem, decide_eq_true_eq,
    Function.setName, Function.appendComment, ne_eq]
  by_cases h1 : module.getName address = cleanName (module.getName address)
  · by_cases h2 : '(' ∈ (module.demangle (module.getName address)).data
    · simp [h1.symm, h2]
    · simp [h1.symm, h2]
  · by_cases h2 : '(' ∈ (module.demangle (module.getName address)).data
    · simp [h1, Ne.symm h1, h2]
    · simp [h1, Ne.symm h1, h2]

theorem pickFunctionName_of_address (cleanName : String → String) (module : Module)
    (function : Function) (address : ByteAddr)
    (hentry : function.entry.bind BasicBlock.address = some address)
    (hname : module.getName address = "") :
    pickFunctionName cleanName module function =
      function.setName ("func_" ++ toHex address) := by
  have he : ("" : String).isEmpty = true := by decide
  unfold pickFunctionName
  rw [hentry]
  simp [hname, he]

theorem pickFunctionName_of_noentry (cleanName : String → String) (module : Module)
    (function : Function)
    (hentry : function.entry.bind BasicBlock.address = none) :
    pickFunctionName cleanName module function =
      function.setName ("func_noentry_" ++ toHex function.self) := by
  unfold pickFunctionName
  rw [hentry]

theorem bind_address_of_entry (function : Function) (block : BasicBlock)
    (address : ByteAddr) (hentry : function.entry = some block)
    (haddr : block.address = some address) :
    function.entry.bind BasicBlock.address = some address := by
  simp [hentry, haddr]

theorem bind_address_of_noentry (function : Function)
    (h : function.entry = none ∨
      ∃ block, function.entry = some block ∧ block.address = none) :
    function.entry.bind BasicBlock.address = none := by
  rcases h with h | ⟨block, h, hb⟩
  · simp [h]
  · simp [h, hb]

theorem address_name_ne_noentry_name (a t : Nat) :
    "func_" ++ toHex a ≠ "func_noentry_" ++ toHex t := by
  intro h
  have hd := congrArg String.data h
  simp only [String.data_append] at hd
  have hd2 : (toHex a).data = 'n' :: ("oentry_".data ++ (toHex t).data) := by
    simpa using hd
  have hmem : 'n' ∈ (toHex a).data := by
    rw [hd2]; simp
  have := toHex_digits a 'n' hmem
  revert this
  decide

/-- C1: when the entry block of a function has a known address that the module
resolves to a non-empty symbol `s`, `pickFunctionName` sets the name to
`cleanName s`, appends `s` to the comment log exactly when `cleanName s` differs
from `s`, after that appends `demangle s` exactly when it contains the
character `(`, and appends nothing else; pointer and entry are untouched. -/
theorem pickFunctionName_symbol (cleanName : String → String) (module : Module)
    (function : Function) (block : BasicBlock) (address : ByteAddr)
    (hentry : function.entry = some block) (haddr : block.address = some address)
    (hname : module.getName address ≠ "") :
    (pickFunctionName cleanName module function).name
        = cleanName (module.getName address) ∧
    (pickFunctionName cleanName module function).comment
        = function.comment
          ++ (if cleanName (module.getName address) ≠ module.getName address
              then [module.getName address] else [])
          ++ (if '(' ∈ (module.demangle (module.getName address)).data
              then [module.demangle (module.getName address)] else []) ∧
    (pickFunctionName cleanName module function).self = function.self ∧
    (pickFunctionName cleanName module function).entry = function.entry := by
  rw [pickFunctionName_of_symbol cleanName module function address
    (bind_address_of_entry function block address hentry haddr) hname]
  exact ⟨rfl, rfl, rfl, rfl⟩

theorem pickFunctionName_symbol_witness :
    (freshFunction 0x7f00 (some 0x2000)).entry = some ⟨some 0x2000⟩ ∧
    stubModule.getName 0x2000 ≠ "" ∧
    (pickFunctionName cleanNameModel stubModule (freshFunction 0x7f00 (some 0x2000))).name
        = "foo_plt" ∧
    (pickFunctionName cleanNameModel stubModule (freshFunction 0x7f00 (some 0x2000))).comment
        = ["foo@plt"] := by
  have h := pickFunctionName_symbol cleanNameModel stubModule
    (freshFunction 0x7f00 (some 0x2000)) ⟨some 0x2000⟩ 0x2000 rfl rfl (by decide)
  refine ⟨rfl, by decide, ?_, ?_⟩
  · rw [h.1]; decide
  · rw [h.2.1]; decide

/-- C2: when the entry block has a known address `a` for which the module
returns an empty symbol name, the name becomes `func_` followed by `a` in base
16 (lower-case digits that read back as `a`, no leading zero, hence no padding
and no radix marker) and the comment log is unchanged; for `a = 0x1000` the
name is `func_1000`. -/
theorem pickFunctionName_address (cleanName : String → String) (module : Module)
    (function : Function) (block : BasicBlock) (address : ByteAddr)
    (hentry : function.entry = some block) (haddr : block.address = some address)
    (hname : module.getName address = "") :
    (pickFunctionName cleanName module function).name = "func_" ++ toHex address ∧
    (pickFunctionName cleanName module function).comment = function.comment ∧
    fromHex (toHex address) = address ∧
    (∀ c ∈ (toHex address).data, hexDigitValue c < 16) ∧
    (address ≠ 0 → (toHex address).data.head? ≠ some '0') ∧
    (address = 0x1000 →
      (pickFunctionName cleanName module function).name = "func_1000") := by
  rw [pickFunctionName_of_address cleanName module function address
    (bind_address_of_entry function block address hentry haddr) hname]
  refine ⟨rfl, rfl, fromHex_toHex address, toHex_digits address, ?_, ?_⟩
  · intro hne
    obtain ⟨d, rest, hd, hpos, hlt⟩ := toHex_head address hne
    rw [hd]
    simp only [List.head?_cons, ne_eq, Option.some.injEq]
    intro h0
    have := hexDigitValue_digitChar d hlt
    rw [h0] at this
    have h00 : hexDigitValue '0' = 0 := by decide
    omega
  · intro h
    subst h
    show "func_" ++ toHex 0x1000 = "func_1000"
    decide

theorem pickFunctionName_address_witness :
    (freshFunction 0x7f00 (some 0x1000)).entry = some ⟨some 0x1000⟩ ∧
    stubModule.getName 0x1000 = "" ∧
    (pickFunctionName cleanNameModel stubModule (freshFunction 0x7f00 (some 0x1000))).name
        = "func_1000" ∧
    (pickFunctionName cleanNameModel stubModule
        (freshFunction 0x7f00 (some 0x1000))).comment = [] :=
  have h := pickFunctionName_address cleanNameModel stubModule
    (freshFunction 0x7f00 (some 0x1000)) ⟨some 0x1000⟩ 0x1000 rfl rfl (by decide)
  ⟨rfl, by decide, h.2.2.2.2.2 rfl, h.2.1⟩

/-- C3 as stated fails: with the symbol `_Z3fooi` (already an identifier, so the
sanitiser returns it unchanged) and the demangled form `foo(int)`, the comment
log after `pickFunctionName` is `["foo(int)"]`; the mangled string is not in
it. -/
theorem pickFunctionName_mangled_counterexample :
    mangledModule.getName 0x1000 = "_Z3fooi" ∧
    '(' ∈ (mangledModule.demangle "_Z3fooi").data ∧
    cleanNameModel "_Z3fooi" = "_Z3fooi" ∧
    (pickFunctionName cleanNameModel mangledModule
        (freshFunction 0x7f00 (some 0x1000))).comment = ["foo(int)"] ∧
    "_Z3fooi" ∉ (pickFunctionName cleanNameModel mangledModule
        (freshFunction 0x7f00 (some 0x1000))).comment := by
  decide

/-- C3, amended: when the entry address resolves to `_Z3fooi` and the demangled
form contains `(`, the name is `cleanName "_Z3fooi"` and the demangled form is
appended to the comment log as its last item; the mangled string is appended
before it only if `cleanName` changed it. When `cleanName` returns `_Z3fooi`
unchanged, the name is a valid identifier and the demangled form is the only
item appended. -/
theorem pickFunctionName_mangled (cleanName : String → String) (module : Module)
    (function : Function) (block : BasicBlock) (address : ByteAddr)
    (hentry : function.entry = some block) (haddr : block.address = some address)
    (hname : module.getName address = "_Z3fooi")
    (hdemangled : '(' ∈ (module.demangle "_Z3fooi").data) :
    (pickFunctionName cleanName module function).name = cleanName "_Z3fooi" ∧
    (pickFunctionName cleanName module function).comment
        = function.comment
          ++ (if cleanName "_Z3fooi" ≠ "_Z3fooi" then ["_Z3fooi"] else [])
          ++ [module.demangle "_Z3fooi"] ∧
    module.demangle "_Z3fooi" ∈ (pickFunctionName cleanName module function).comment ∧
    (cleanName "_Z3fooi" = "_Z3fooi" →
      isValidIdentifier (pickFunctionName cleanName module function).name = true ∧
      (pickFunctionName cleanName module function).comment
        = function.comment ++ [module.demangle "_Z3fooi"]) := by
  have hne : module.getName address ≠ "" := by rw [hname]; decide
  rw [pickFunctionName_of_symbol cleanName module function address
    (bind_address_of_entry function block address hentry haddr) hne]
  rw [hname, if_pos hdemangled]
  refine ⟨rfl, rfl, by simp, ?_⟩
  intro hclean
  rw [hclean]
  refine ⟨?_, by simp⟩
  show isValidIdentifier "_Z3fooi" = true
  decide

theorem pickFunctionName_mangled_witness :
    mangledModule.getName 0x1000 = "_Z3fooi" ∧
    '(' ∈ (mangledModule.demangle "_Z3fooi").data ∧
    (pickFunctionName cleanNameModel mangledModule
        (freshFunction 0x7f00 (some 0x1000))).name = "_Z3fooi" ∧
    isValidIdentifier (pickFunctionName cleanNameModel mangledModule
        (freshFunction 0x7f00 (some 0x1000))).name = true :=
  have h := pickFunctionName_mangled cleanNameModel mangledModule
    (freshFunction 0x7f00 (some 0x1000)) ⟨some 0x1000⟩ 0x1000 rfl rfl rfl (by decide)
  ⟨rfl, by decide, by rw [h.1]; decide, (h.2.2.2 (by decide)).1⟩

/-- C4: two distinct function objects of one run (distinct pointers) that have
no entry block, or an entry block without an address, get different names from
`createFunctions`: each name is `func_noentry_` followed by the pointer in base
16, and that rendering is injective in the pointer. -/
theorem createFunctions_noentry_names_distinct (cleanName : String → String)
    (module : Module) (made : List Function) (f g : Function)
    (hf : f ∈ made) (hg : g ∈ made)
    (hfentry : f.entry = none ∨ ∃ block, f.entry = some block ∧ block.address = none)
    (hgentry : g.entry = none ∨ ∃ block, g.entry = some block ∧ block.address = none)
    (hdistinct : f.self ≠ g.self) :
    pickFunctionName cleanName module f ∈ createFunctions cleanName module made ∧
    pickFunctionName cleanName module g ∈ createFunctions cleanName module made ∧
    (pickFunctionName cleanName module f).name = "func_noentry_" ++ toHex f.self ∧
    (pickFunctionName cleanName module g).name = "func_noentry_" ++ toHex g.self ∧
    (pickFunctionName cleanName module f).name
      ≠ (pickFunctionName cleanName module g).name ∧
    (∀ t u : Nat, "func_noentry_" ++ toHex t = "func_noentry_" ++ toHex u → t = u) := by
  have hinj : ∀ t u : Nat,
      "func_noentry_" ++ toHex t = "func_noentry_" ++ toHex u → t = u :=
    fun t u h => toHex_injective (string_append_left_cancel _ _ _ h)
  refine ⟨List.mem_map_of_mem _ hf, List.mem_map_of_mem _ hg, ?_, ?_, ?_, hinj⟩
  · rw [pickFunctionName_of_noentry _ _ _ (bind_address_of_noentry f hfentry)]; rfl
  · rw [pickFunctionName_of_noentry _ _ _ (bind_address_of_noentry g hgentry)]; rfl
  · rw [pickFunctionName_of_noentry _ _ _ (bind_address_of_noentry f hfentry),
      pickFunctionName_of_noentry _ _ _ (bind_address_of_noentry g hgentry)]
    intro h
    exact hdistinct (hinj _ _ h)

theorem createFunctions_noentry_names_distinct_witness :
    (pickFunctionName cleanNameModel stubModule (entrylessFunction 0x7f00)).name
      = "func_noentry_7f00" ∧
    (pickFunctionName cleanNameModel stubModule (freshFunction 0x7f40 none)).name
      = "func_noentry_7f40" ∧
    (pickFunctionName cleanNameModel stubModule (entrylessFunction 0x7f00)).name
      ≠ (pickFunctionName cleanNameModel stubModule (freshFunction 0x7f40 none)).name := by
  have h := createFunctions_noentry_names_distinct cleanNameModel stubModule
    [entrylessFunction 0x7f00, freshFunction 0x7f40 none]
    (entrylessFunction 0x7f00) (freshFunction 0x7f40 none)
    (by simp) (by simp) (Or.inl rfl) (Or.inr ⟨⟨none⟩, rfl, rfl⟩) (by decide)
  refine ⟨?_, ?_, h.2.2.2.2.1⟩
  · rw [h.2.2.1]; decide
  · rw [h.2.2.2.1]; decide

/-- C10: the synthesised names never collide. Two functions named from their
entry addresses `a` and `b` (no symbol at either) get equal names only if
`a = b`; a function named from its entry address never gets the name of a
function named from its pointer; the same holds of the bare renderings
`func_` + hex and `func_noentry_` + hex. -/
theorem fallback_names_never_collide (cleanName : String → String) (module : Module) :
    (∀ a b : Nat, "func_" ++ toHex a = "func_" ++ toHex b → a = b) ∧
    (∀ a t : Nat, "func_" ++ toHex a ≠ "func_noentry_" ++ toHex t) ∧
    (∀ (f g : Function) (a b : ByteAddr),
      f.entry.bind BasicBlock.address = some a → module.getName a = "" →
      g.entry.bind BasicBlock.address = some b → module.getName b = "" →
      (pickFunctionName cleanName module f).name
        = (pickFunctionName cleanName module g).name → a = b) ∧
    (∀ (f g : Function) (a : ByteAddr),
      f.entry.bind BasicBlock.address = some a → module.getName a = "" →
      g.entry.bind BasicBlock.address = none →
      (pickFunctionName cleanName module f).name
        ≠ (pickFunctionName cleanName module g).name) := by
  have hinj : ∀ a b : Nat, "func_" ++ toHex a = "func_" ++ toHex b → a = b :=
    fun a b h => toHex_injective (string_append_left_cancel _ _ _ h)
  refine ⟨hinj, address_name_ne_noentry_name, ?_, ?_⟩
  · intro f g a b hf ha hg hb h
    rw [pickFunctionName_of_address _ _ _ a hf ha,
      pickFunctionName_of_address _ _ _ b hg hb] at h
    exact hinj a b h
  · intro f g a hf ha hg h
    rw [pickFunctionName_of_address _ _ _ a hf ha,
      pickFunctionName_of_noentry _ _ _ hg] at h
    exact address_name_ne_noentry_name a g.self h

theorem fallback_names_never_collide_witness :
    (pickFunctionName cleanNameModel stubModule (freshFunction 0x7f00 (some 0x1000))).name
      ≠ (pickFunctionName cleanNameModel stubModule (entrylessFunction 0x1000)).name ∧
    ((pickFunctionName cleanNameModel stubModule (freshFunction 0x7f00 (some 0x1000))).name
      = (pickFunctionName cleanNameModel stubModule (freshFunction 0x7f40 (some 0x1000))).name
      → (0x1000 : Nat) = 0x1000) :=
  have h := fallback_names_never_collide cleanNameModel stubModule
  ⟨h.2.2.2 (freshFunction 0x7f00 (some 0x1000)) (entrylessFunction 0x1000) 0x1000
      rfl (by decide) rfl,
    h.2.2.1 (freshFunction 0x7f00 (some 0x1000)) (freshFunction 0x7f40 (some 0x1000))
      0x1000 0x1000 rfl (by decide) rfl (by decide)⟩

/-! ### Stages and the registry -/

/-- C5: if the dataflow analyzer is cancelled while `analyzeDataflow` runs it
for a function, `analyzeDataflow` ends cancelled and the registry is exactly as
before the call, so neither a dataflow slot for the function nor a tree is
published; and the dataflow slots change only when the analyzer has returned
normally. -/
theorem analyzeDataflow_cancelled (analyzer : DataflowAnalyzer) (context : Context)
    (function : Function) :
    (analyzer context.module.architecture function context.callsData
        context.cancellationToken = .cancelled →
      analyzeDataflow analyzer context function = (.cancelled, context) ∧
      (analyzeDataflow analyzer context function).2.getDataflow function
        = context.getDataflow function ∧
      (analyzeDataflow analyzer context function).2.tree = context.tree) ∧
    ((analyzeDataflow analyzer context function).2.dataflows ≠ context.dataflows →
      ∃ dataflow, analyzer context.module.architecture function context.callsData
        context.cancellationToken = .returned dataflow) := by
  unfold analyzeDataflow
  cases h : analyzer context.module.architecture function context.callsData
      context.cancellationToken with
  | returned dataflow => exact ⟨fun hc => (by cases hc), fun _ => ⟨dataflow, rfl⟩⟩
  | cancelled => exact ⟨fun _ => ⟨rfl, rfl, rfl⟩, fun hne => absurd rfl hne⟩
  | fatal => exact ⟨fun hc => (by cases hc), fun hne => absurd rfl hne⟩

theorem analyzeDataflow_cancelled_witness :
    cancelledAt7f80 midRunContext.module.architecture (entrylessFunction 0x7f80)
        midRunContext.callsData midRunContext.cancellationToken = .cancelled ∧
    analyzeDataflow cancelledAt7f80 midRunContext (entrylessFunction 0x7f80)
      = (.cancelled, midRunContext) ∧
    (analyzeDataflow cancelledAt7f80 midRunContext
        (entrylessFunction 0x7f80)).2.getDataflow (entrylessFunction 0x7f80) = none ∧
    (analyzeDataflow cancelledAt7f80 midRunContext (entrylessFunction 0x7f80)).2.tree
      = none :=
  have h := (analyzeDataflow_cancelled cancelledAt7f80 midRunContext
    (entrylessFunction 0x7f80)).1 (by decide)
  ⟨by decide, h.1, h.2.1.trans (by decide), h.2.2.trans rfl⟩

/-- C7: for a non-null block that is a key of the dominator mapping,
`getDominators` returns the set stored for it; for the null pointer and for a
block that is not a key it ends in a fatal assertion failure, never in a
returned set. -/
theorem getDominators_query (self : Dominators) (basicBlock : Nat) :
    (basicBlock ≠ NULL → ∀ stored, self.dominators_.lookup basicBlock = some stored →
      self.getDominators basicBlock = .returned stored) ∧
    (basicBlock = NULL ∨ self.dominators_.lookup basicBlock = none →
      self.getDominators basicBlock = .fatal) := by
  constructor
  · intro hnull stored hstored
    simp [Dominators.getDominators, contains, find, hnull, hstored]
  · intro h
    rcases h with h | h
    · simp [Dominators.getDominators, h]
    · by_cases hnull : basicBlock = NULL
      · simp [Dominators.getDominators, hnull]
      · simp [Dominators.getDominators, contains, hnull, h]

theorem getDominators_query_witness :
    twoBlockDominators.getDominators 0x20 = .returned [0x10, 0x20] ∧
    twoBlockDominators.getDominators NULL = .fatal ∧
    twoBlockDominators.getDominators 0x30 = .fatal :=
  ⟨(getDominators_query twoBlockDominators 0x20).1 (by decide) [0x10, 0x20] (by decide),
    (getDominators_query twoBlockDominators NULL).2 (Or.inl rfl),
    (getDominators_query twoBlockDominators 0x30).2 (Or.inr (by decide))⟩

/-! ### The consistency check of the tree -/

mutual
theorem visit_returned_iff (checker : TreeVisitor) : ∀ node : TreeNode,
    checker.visit node = .returned () ↔ ∀ n ∈ node.nodes, checker.accepts n
  | .statement irStatement children => by
    have ih := visitChildNodes_returned_iff checker children
    simp only [TreeVisitor.visit, TreeNode.nodes, List.forall_mem_cons,
      TreeVisitor.accepts]
    split
    · rename_i h
      simp only [false_iff, reduceCtorEq]
      intro hh
      exact h.2 (hh.1 h.1)
    · rename_i h
      rw [ih]
      constructor
      · intro hh
        refine ⟨?_, hh⟩
        intro hne
        by_contra hc
        exact h ⟨hne, hc⟩
      · intro hh
        exact hh.2
  | .expression irTerm type children => by
    have ih := visitChildNodes_returned_iff checker children
    simp only [TreeVisitor.visit, TreeNode.nodes, List.forall_mem_cons,
      TreeVisitor.accepts]
    split
    · rename_i h
      simp only [false_iff, reduceCtorEq]
      intro hh
      exact h.2 (hh.1.1 h.1)
    · rename_i h
      split
      · rename_i h2
        simp only [false_iff, reduceCtorEq]
        intro hh
        exact hh.1.2 h2
      · rename_i h2
        rw [ih]
        constructor
        · intro hh
          refine ⟨⟨?_, h2⟩, hh⟩
          intro hne
          by_contra hc
          exact h ⟨hne, hc⟩
        · intro hh
          exact hh.2
  | .other children => by
    have ih := visitChildNodes_returned_iff checker children
    simp only [TreeVisitor.visit, TreeNode.nodes, List.forall_mem_cons,
      TreeVisitor.accepts, true_and]
    exact ih
theorem visitChildNodes_returned_iff (checker : TreeVisitor) :
    ∀ children : List TreeNode,
      checker.visitChildNodes children = .returned () ↔
        ∀ n ∈ TreeNode.nodesOfList children, checker.accepts n
  | [] => by simp [TreeVisitor.visitChildNodes, TreeNode.nodesOfList]
  | child :: rest => by
    have ih1 := visit_returned_iff checker child
    have ih2 := visitChildNodes_returned_iff checker rest
    simp only [TreeVisitor.visitChildNodes, TreeNode.nodesOfList, List.forall_mem_append]
    rw [← ih1, ← ih2]
    cases h : checker.visit child with
    | returned u => simp
    | cancelled => simp
    | fatal => simp
end

theorem accepts_all_iff (checker : TreeVisitor) (nodes : List TreeNode) :
    (∀ n ∈ nodes, checker.accepts n) ↔
      (∀ irStatement children, TreeNode.statement irStatement children ∈ nodes →
        irStatement ≠ NULL → irStatement ∈ checker.statements_) ∧
      (∀ irTerm type children, TreeNode.expression irTerm type children ∈ nodes →
        (irTerm ≠ NULL → irTerm ∈ checker.terms_) ∧ type ≠ NULL) := by
  constructor
  · intro h
    exact ⟨fun st ch hm => h _ hm, fun tm ty ch hm => h _ hm⟩
  · intro h n hn
    cases n with
    | statement st ch => exact h.1 st ch hn
    | expression tm ty ch => exact h.2 tm ty ch hn
    | other ch => trivial

/-- C9 as stated fails: the generated tree `erroneousTree` has an expression
node whose type is the erroneous type of the tree, and `checkTree` returns
without a failed assertion. -/
theorem checkTree_erroneous_counterexample :
    TreeNode.expression NULL erroneousTree.erroneousType []
      ∈ erroneousTree.root.nodes ∧
    checkedContext.tree = some erroneousTree ∧
    checkTree fixedCensus checkedContext = .returned () := by
  refine ⟨?_, rfl, by decide⟩
  simp [erroneousTree, TreeNode.nodes, TreeNode.nodesOfList]

/-- C9, amended: `checkTree` returns without a failed assertion exactly when the
functions and the tree are published, the backing IR statement of every
statement node and the backing IR term of every expression node, when present,
is in the set the census visited, and the type of every expression node is not
null. Whether that type is the erroneous type is not checked. -/
theorem checkTree_returns_iff
    (visit : Option CallsData → CensusVisitor → Function → CensusVisitor)
    (context : Context) :
    checkTree visit context = .returned () ↔
      ∃ functions tree, context.functions = some functions ∧ context.tree = some tree ∧
        (∀ irStatement children,
          TreeNode.statement irStatement children ∈ tree.root.nodes →
          irStatement ≠ NULL →
          irStatement ∈ (functions.foldl (visit context.callsData) ⟨[], []⟩).statements) ∧
        (∀ irTerm type children,
          TreeNode.expression irTerm type children ∈ tree.root.nodes →
          (irTerm ≠ NULL →
            irTerm ∈ (functions.foldl (visit context.callsData) ⟨[], []⟩).terms) ∧
          type ≠ NULL) := by
  unfold checkTree
  cases hf : context.functions with
  | none => simp
  | some functions =>
    cases ht : context.tree with
    | none => simp
    | some tree =>
      simp only [Option.some.injEq, exists_and_left, exists_eq_left']
      rw [visit_returned_iff, accepts_all_iff]

theorem checkTree_returns_iff_witness :
    ∃ functions tree, checkedContext.functions = some functions ∧
      checkedContext.tree = some tree ∧
      (∀ irStatement children,
        TreeNode.statement irStatement children ∈ tree.root.nodes →
        irStatement ≠ NULL →
        irStatement ∈
          (functions.foldl (fixedCensus checkedContext.callsData) ⟨[], []⟩).statements) ∧
      (∀ irTerm type children,
        TreeNode.expression irTerm type children ∈ tree.root.nodes →
        (irTerm ≠ NULL →
          irTerm ∈ (functions.foldl (fixedCensus checkedContext.callsData) ⟨[], []⟩).terms) ∧
        type ≠ NULL) :=
  (checkTree_returns_iff fixedCensus checkedContext).1 (by decide)

/-! ### Construction of the dominator sets -/

theorem mem_foldl_inter (sets : DominatorSets) (x : Nat) :
    ∀ (preds : List Nat) (acc : Finset Nat),
      x ∈ preds.foldl (fun acc p => acc ∩ sets p) acc ↔ x ∈ acc ∧ ∀ p ∈ preds, x ∈ sets p := by
  intro preds
  induction preds with
  | nil => intro acc; simp
  | cons p preds ih =>
    intro acc
    simp only [List.foldl_cons, ih, Finset.mem_inter, List.forall_mem_cons]
    tauto

theorem recompute_mono (cfg : CFG) (s' s : DominatorSets) (hle : ∀ x, s' x ⊆ s x) (b : Nat) :
    cfg.recompute s' b ⊆ cfg.recompute s b := by
  intro x hx
  simp only [CFG.recompute, Finset.mem_insert, mem_foldl_inter] at hx ⊢
  rcases hx with hx | ⟨hx, hp⟩
  · exact Or.inl hx
  · exact Or.inr ⟨hx, fun p hpm => hle p (hp p hpm)⟩

theorem initialSets_shrinking (cfg : CFG) : cfg.Shrinking cfg.initialSets := by
  intro b hb x hx
  simp only [CFG.nonEntryBlocks, List.mem_filter, decide_eq_true_eq] at hb
  simp only [CFG.initialSets, hb.2, if_false]
  simp only [CFG.recompute, Finset.mem_insert, mem_foldl_inter] at hx
  rcases hx with hx | ⟨hx, _⟩
  · rw [hx]; simpa [CFG.allBlocks] using hb.1
  · exact hx

theorem update_shrinking (cfg : CFG) (s : DominatorSets) (b : Nat)
    (hs : cfg.Shrinking s) (hb : b ∈ cfg.nonEntryBlocks) :
    (∀ x, (fun x => if x = b then cfg.recompute s b else s x) x ⊆ s x) ∧
    cfg.Shrinking (fun x => if x = b then cfg.recompute s b else s x) := by
  have hle : ∀ x, (fun x => if x = b then cfg.recompute s b else s x) x ⊆ s x := by
    intro x
    by_cases hx : x = b
    · simp only [hx, if_true]; exact hs b hb
    · simp only [hx, if_false]; exact Finset.Subset.refl _
  refine ⟨hle, ?_⟩
  intro u hu
  have hmono := recompute_mono cfg _ s hle u
  by_cases hx : u = b
  · simp only [hx, if_true]
    rw [hx] at hmono
    exact hmono
  · simp only [hx, if_false]
    exact hmono.trans (hs u hu)

theorem pass_spec (cfg : CFG) :
    ∀ (rest : List Nat), (∀ b ∈ rest, b ∈ cfg.nonEntryBlocks) →
    ∀ (s : DominatorSets) (c : Bool), cfg.Shrinking s →
      cfg.Shrinking (cfg.pass rest s c).1 ∧
      (∀ x, (cfg.pass rest s c).1 x ⊆ s x) ∧
      (((cfg.pass rest s c).2 = c ∧ (cfg.pass rest s c).1 = s ∧
          ∀ b ∈ rest, cfg.recompute s b = s b) ∨
        ((cfg.pass rest s c).2 = true ∧ ∃ b ∈ rest, (cfg.pass rest s c).1 b ⊂ s b)) := by
  intro rest
  induction rest with
  | nil =>
    intro _ s c hs
    exact ⟨hs, fun x => Finset.Subset.refl _, Or.inl ⟨rfl, rfl, by simp⟩⟩
  | cons b rest ih =>
    intro hrest s c hs
    have hb : b ∈ cfg.nonEntryBlocks := hrest b (List.mem_cons_self _ _)
    have hrest' : ∀ b ∈ rest, b ∈ cfg.nonEntryBlocks :=
      fun x hx => hrest x (List.mem_cons_of_mem _ hx)
    by_cases heq : cfg.recompute s b = s b
    · simp only [CFG.pass, heq, if_true]
      obtain ⟨h1, h2, h3⟩ := ih hrest' s c hs
      refine ⟨h1, h2, ?_⟩
      rcases h3 with ⟨hc, hsame, hfix⟩ | ⟨hc, b', hb', hlt⟩
      · left
        refine ⟨hc, hsame, ?_⟩
        intro x hx
        rcases List.mem_cons.1 hx with hx | hx
        · rw [hx]; exact heq
        · exact hfix x hx
      · right
        exact ⟨hc, b', List.mem_cons_of_mem _ hb', hlt⟩
    · simp only [CFG.pass, heq, if_false]
      obtain ⟨hle, hs1⟩ := update_shrinking cfg s b hs hb
      obtain ⟨h1, h2, h3⟩ := ih hrest' _ true hs1
      refine ⟨h1, fun x => (h2 x).trans (hle x), Or.inr ⟨?_, b, List.mem_cons_self _ _, ?_⟩⟩
      · rcases h3 with ⟨hc, _, _⟩ | ⟨hc, _⟩
        · exact hc
        · exact hc
      · have hsub : (cfg.pass rest (fun x => if x = b then cfg.recompute s b else s x) true).1 b
            ⊆ cfg.recompute s b := by
          have := h2 b
          simpa using this
        exact Finset.ssubset_of_subset_of_ssubset hsub
          (Finset.ssubset_iff_subset_ne.2 ⟨hs b hb, heq⟩)

theorem pass_entry (cfg : CFG) :
    ∀ (rest : List Nat), (∀ b ∈ rest, b ≠ cfg.entry) →
    ∀ (s : DominatorSets) (c : Bool), (cfg.pass rest s c).1 cfg.entry = s cfg.entry := by
  intro rest
  induction rest with
  | nil => intro _ s c; rfl
  | cons b rest ih =>
    intro hrest s c
    have hb : b ≠ cfg.entry := hrest b (List.mem_cons_self _ _)
    have hrest' : ∀ b ∈ rest, b ≠ cfg.entry := fun x hx => hrest x (List.mem_cons_of_mem _ hx)
    by_cases heq : cfg.recompute s b = s b
    · simp only [CFG.pass, heq, if_true]
      exact ih hrest' s c
    · simp only [CFG.pass, heq, if_false]
      rw [ih hrest' _ true]
      simp [Ne.symm hb]

theorem iterate_converges (cfg : CFG) :
    ∀ (fuel : Nat) (s : DominatorSets), cfg.Shrinking s → cfg.totalSize s < fuel →
      ∃ s', cfg.iterate fuel s = some s' ∧ s' cfg.entry = s cfg.entry ∧
        ∀ b ∈ cfg.nonEntryBlocks, cfg.recompute s' b = s' b := by
  intro fuel
  induction fuel with
  | zero => intro s _ h; omega
  | succ fuel ih =>
    intro s hs hfuel
    have hW : ∀ b ∈ cfg.nonEntryBlocks, b ∈ cfg.nonEntryBlocks := fun _ h => h
    have hne : ∀ b ∈ cfg.nonEntryBlocks, b ≠ cfg.entry := by
      intro b hb
      simp only [CFG.nonEntryBlocks, List.mem_filter, decide_eq_true_eq] at hb
      exact hb.2
    obtain ⟨h1, h2, h3⟩ := pass_spec cfg cfg.nonEntryBlocks hW s false hs
    have hentry := pass_entry cfg cfg.nonEntryBlocks hne s false
    simp only [CFG.iterate]
    rcases hr : cfg.pass cfg.nonEntryBlocks s false with ⟨s1, c1⟩
    rw [hr] at h1 h2 h3 hentry
    simp only at h1 h2 h3 hentry
    cases c1 with
    | false =>
      simp only
      rcases h3 with ⟨_, hsame, hfix⟩ | ⟨hc, _⟩
      · refine ⟨s1, rfl, hentry, ?_⟩
        rw [hsame]; exact hfix
      · cases hc
    | true =>
      simp only
      rcases h3 with ⟨hc, _, _⟩ | ⟨_, b, hb, hlt⟩
      · cases hc
      · have hdec : cfg.totalSize s1 < cfg.totalSize s := by
          apply List.sum_lt_sum
          · intro i _
            exact Finset.card_le_card (h2 i)
          · exact ⟨b, hb, Finset.card_lt_card hlt⟩
        obtain ⟨s', hs', he', hfix'⟩ := ih s1 h1 (by omega)
        exact ⟨s', hs', he'.trans hentry, hfix'⟩

theorem totalSize_initialSets (cfg : CFG) : cfg.totalSize cfg.initialSets < cfg.passBound := by
  have h1 : ∀ x ∈ cfg.nonEntryBlocks.map (fun b => (cfg.initialSets b).card),
      x ≤ cfg.basicBlocks.length := by
    intro x hx
    obtain ⟨b, hb, rfl⟩ := List.mem_map.1 hx
    simp only [CFG.nonEntryBlocks, List.mem_filter, decide_eq_true_eq] at hb
    simp only [CFG.initialSets, hb.2, if_false, CFG.allBlocks]
    exact List.toFinset_card_le _
  have h2 := List.sum_le_card_nsmul _ _ h1
  have h3 : cfg.nonEntryBlocks.length ≤ cfg.basicBlocks.length := List.length_filter_le _ _
  simp only [List.length_map, smul_eq_mul] at h2
  have h4 : cfg.nonEntryBlocks.length * cfg.basicBlocks.length
      ≤ cfg.basicBlocks.length * cfg.basicBlocks.length := Nat.mul_le_mul_right _ h3
  unfold CFG.totalSize CFG.passBound
  omega


theorem filter_mem_singleton (l : List Nat) (a : Nat) (hnd : l.Nodup) (ha : a ∈ l) :
    l.filter (fun x => x ∈ ({a} : Finset Nat)) = [a] := by
  have h : l.filter (fun x => decide (x ∈ ({a} : Finset Nat))) = l.filter (fun x => x == a) := by
    congr 1
    funext x
    by_cases hx : x = a <;> simp [hx]
  rw [h, List.filter_beq, List.count_eq_one_of_mem hnd ha]
  rfl

theorem lookup_map_self (f : Nat → List Nat) (a : Nat) :
    ∀ (l : List Nat), a ∈ l → (l.map (fun b => (b, f b))).lookup a = some (f a) := by
  intro l
  induction l with
  | nil => intro h; simp at h
  | cons b l ih =>
    intro h
    by_cases hab : a = b
    · subst hab
      simp [List.lookup]
    · have hb : (a == b) = false := by simpa using hab
      rcases List.mem_cons.1 h with h | h
      · exact absurd h hab
      · simp only [List.map_cons, List.lookup, hb]
        exact ih h

/-- C8: for every control-flow graph whose entry is one of its nodes (and a
valid pointer), the constructor of `Dominators` finishes, and the dominator set
it has stored for the entry, as `getDominators` returns it, is exactly
`{entry}`. -/
theorem Dominators_entry (cfg : CFG) (hentry : cfg.entry ∈ cfg.basicBlocks)
    (hvalid : cfg.entry ≠ NULL) :
    ∃ dominators, Dominators.construct cfg = some dominators ∧
      dominators.dominators_.lookup cfg.entry = some [cfg.entry] ∧
      dominators.getDominators cfg.entry = .returned [cfg.entry] := by
  obtain ⟨sets, hsets, hsame, _⟩ := iterate_converges cfg cfg.passBound cfg.initialSets
    (initialSets_shrinking cfg) (totalSize_initialSets cfg)
  have hset : sets cfg.entry = {cfg.entry} := by
    rw [hsame]; simp [CFG.initialSets]
  have hlookup : (cfg.basicBlocks.map fun block =>
      (block, cfg.basicBlocks.dedup.filter fun dominator => dominator ∈ sets block)).lookup
        cfg.entry = some [cfg.entry] := by
    rw [lookup_map_self (fun block =>
      cfg.basicBlocks.dedup.filter fun dominator => dominator ∈ sets block) cfg.entry
      cfg.basicBlocks hentry]
    simp only [hset]
    rw [filter_mem_singleton _ _ (List.nodup_dedup _) (List.mem_dedup.2 hentry)]
  refine ⟨_, by rw [Dominators.construct, hsets]; rfl, hlookup, ?_⟩
  simp [Dominators.getDominators, contains, find, hvalid, hlookup]

theorem Dominators_entry_witness :
    diamondCFG.entry ∈ diamondCFG.basicBlocks ∧ diamondCFG.entry ≠ NULL ∧
    ∃ dominators, Dominators.construct diamondCFG = some dominators ∧
      dominators.dominators_.lookup 0x10 = some [0x10] ∧
      dominators.getDominators 0x10 = .returned [0x10] :=
  ⟨by decide, by decide, Dominators_entry diamondCFG (by decide) (by decide)⟩

end Snowman
